import Mathlib

/-!
Verification development for the volume-analysis core of the
token-volume-tracker repository (`pkg/analysis/volume.go`).

Embedding conventions:

* Calendar instants (Go `time.Time` values, always used in UTC here) are
  modelled as integer seconds.  `Truncate(24 * time.Hour)` rounds an instant
  down to a multiple of 86400 seconds (Go truncates towards the zero time,
  whose offset from the Unix epoch is itself a multiple of 86400 seconds, so
  truncation to day multiples agrees with flooring on Unix seconds), and
  `Format("2006-01-02")` of a UTC instant identifies its calendar day, which
  we model as the floor of the instant divided by 86400.  `AddDate(0, 0, n)`
  on a UTC instant adds exactly `n * 86400` seconds.
* Go `float64` volumes and averages are modelled as exact rationals (`Rat`).
* Go maps from date strings to records are modelled as functions
  `Int → Option VolumeData` keyed by the calendar day.
* Fallible operations are modelled with `Except` / `Option`; a Go runtime
  panic (index out of range) is a distinguished outcome, separate from an
  error return.
-/

set_option maxHeartbeats 1000000

namespace TokenVolume

/-- Calendar day of a UTC instant given in seconds: the day index is the
floor of the instant over 86400 (`Int` division in Lean is Euclidean, which
is flooring for the positive divisor 86400).  This models
`t.UTC().Format("2006-01-02")` as a day number. -/
def dayOf (t : Int) : Int := t / 86400

/-- Models `t.UTC().Truncate(24 * time.Hour)`: round the instant down to
midnight UTC of its calendar day. -/
def truncDay (t : Int) : Int := 86400 * (t / 86400)

/-- Models the struct `VolumeData` of `pkg/analysis/volume.go` (lines 24-40):
a single day's trading data and its derived metrics. -/
structure VolumeData where
  name : String
  date : Int
  volume : Rat
  dayAvg30 : Rat
  dayAvg90 : Rat
  dayAvg180 : Rat
  lowVolumeDays30 : Nat
  lowVolumeDays90 : Nat
  lowVolumeDays180 : Nat
  high30 : Rat
  high90 : Rat
  high180 : Rat
  changeFromHighAvg30 : Rat
  changeFromHighAvg90 : Rat
  changeFromHighAvg180 : Rat
deriving DecidableEq, Repr

/-- A `VolumeData` as constructed by the record-reading loop and by the
densifier (`VolumeData{Name: ..., Date: ..., Volume: ...}` in Go): all
derived fields carry Go's zero value. -/
def mkObs (name : String) (date : Int) (volume : Rat) : VolumeData :=
  { name := name, date := date, volume := volume
    dayAvg30 := 0, dayAvg90 := 0, dayAvg180 := 0
    lowVolumeDays30 := 0, lowVolumeDays90 := 0, lowVolumeDays180 := 0
    high30 := 0, high90 := 0, high180 := 0
    changeFromHighAvg30 := 0, changeFromHighAvg90 := 0, changeFromHighAvg180 := 0 }

/-- Default record used for total list indexing in statements
(never observable under the index bounds carried by the theorems). -/
def blankRecord : VolumeData := mkObs "" 0 0

/-- Models the enum `DataSource` (volume.go lines 44-50). -/
inductive DataSource where
  | coinMarketCap : DataSource
  | coinGecko : DataSource
  | unknown : DataSource
deriving DecidableEq, Repr

/-- Models `detectDataSource` (volume.go lines 55-68) applied to a
successfully read header row: CoinGecko exactly when the header has 4
columns whose first is `snapped_at` and whose fourth is `total_volume`
(the Go condition `len(header) == 4 && header[0] == "snapped_at" &&
header[3] == "total_volume"`); CoinMarketCap otherwise. -/
def detectDataSource (header : List String) : DataSource :=
  if header.length = 4 ∧ header.get? 0 = some "snapped_at" ∧
      header.get? 3 = some "total_volume" then
    DataSource.coinGecko
  else
    DataSource.coinMarketCap

/-- Models `detectDataSource` including its error path: the header read
result is `none` when `reader.Read()` fails (e.g. empty input), in which
case the Go function returns an error (volume.go lines 56-59). -/
def detectDataSourceRead (readHeader : Option (List String)) : Except String DataSource :=
  match readHeader with
  | none => Except.error "error reading header"
  | some header => Except.ok (detectDataSource header)

/-- C8 counterexample: the claim says that only the exact header
`snapped_at,price,market_cap,total_volume` classifies as FormatB
(CoinGecko) and every other readable header classifies as FormatA
(CoinMarketCap).  The code only inspects columns 1 and 4, so the header
`snapped_at,foo,bar,total_volume` — which differs from the exact
CoinGecko header — still classifies as FormatB, refuting the claim. -/
theorem detectDataSource_ignores_middle_columns :
    detectDataSource ["snapped_at", "foo", "bar", "total_volume"] = DataSource.coinGecko ∧
    ["snapped_at", "foo", "bar", "total_volume"] ≠
      ["snapped_at", "price", "market_cap", "total_volume"] := by
  constructor
  · decide
  · decide

/-- C8 (amended): source detection classifies a readable header row as
FormatB (CoinGecko) exactly when it has 4 columns whose first column is
`snapped_at` and whose fourth column is `total_volume` (the middle two
column names are not inspected); every other readable header row
classifies as FormatA (CoinMarketCap), and an unreadable header row
yields the `MalformedInput` error. -/
theorem detectDataSource_characterization :
    detectDataSourceRead none = Except.error "error reading header" ∧
    ∀ header : List String,
      (detectDataSource header = DataSource.coinGecko ↔
        header.length = 4 ∧ header.get? 0 = some "snapped_at" ∧
          header.get? 3 = some "total_volume") ∧
      (detectDataSource header = DataSource.coinMarketCap ↔
        ¬ (header.length = 4 ∧ header.get? 0 = some "snapped_at" ∧
          header.get? 3 = some "total_volume")) ∧
      detectDataSourceRead (some header) = Except.ok (detectDataSource header) := by
  refine ⟨rfl, fun header => ?_⟩
  by_cases h : header.length = 4 ∧ header.get? 0 = some "snapped_at" ∧
      header.get? 3 = some "total_volume"
  · refine ⟨?_, ?_, rfl⟩
    · simp [detectDataSource, h]
    · simp [detectDataSource, h]
  · refine ⟨?_, ?_, rfl⟩
    · simp [detectDataSource, h]
    · simp [detectDataSource, h]

/-- Outcome of a Go function call that may either return a value, return a
non-nil error, or hit a runtime panic.  `oob` is the outcome of an
index-out-of-range access: unlike `err` it is not an error return and is
not handled by the caller. -/
inductive ParseOutcome (α : Type) where
  | ok : α → ParseOutcome α
  | err : ParseOutcome α
  | oob : ParseOutcome α
deriving DecidableEq, Repr

/-- Removes leading and trailing `c` characters from a character list. -/
def trimCharList (c : Char) (l : List Char) : List Char :=
  ((l.dropWhile (fun x => x == c)).reverse.dropWhile (fun x => x == c)).reverse

/-- Models `strings.Trim(s, "\"")`: strip leading and trailing double-quote
characters. -/
def trimQuotes (s : String) : String :=
  String.mk (trimCharList '"' s.toList)

/-- The Go zero `time.Time` (January 1, year 1, UTC) in Unix seconds. -/
def goZeroTime : Int := -62135596800

/-- Models `parseRecord` (volume.go lines 74-104).  The timestamp parsers
(`time.Parse` with the CoinGecko layout `"2006-01-02 15:04:05 MST"`, and
`time.Parse` with `time.RFC3339Nano`) and the volume parser
(`strconv.ParseFloat`) are Go standard-library collaborators and are taken
as parameters; `none` models a parsing error return.  The fixed-index field
accesses `record[0]`, `record[3]` (CoinGecko) and `record[0]`, `record[9]`
(CoinMarketCap) are unguarded in the source; an access past the end of the
row is a Go runtime panic, modelled by the `oob` outcome.  For a source
that matches no switch case the Go function returns the zero timestamp,
volume 0 and a nil error. -/
def parseRecord (parseTimeGecko parseTimeCMC : String → Option Int)
    (parseVolume : String → Option Rat) (record : List String)
    (source : DataSource) : ParseOutcome (Int × Rat) :=
  match source with
  | DataSource.coinGecko =>
    match record.get? 0 with
    | none => ParseOutcome.oob
    | some s0 =>
      match parseTimeGecko s0 with
      | none => ParseOutcome.err
      | some t =>
        match record.get? 3 with
        | none => ParseOutcome.oob
        | some s3 =>
          match parseVolume s3 with
          | none => ParseOutcome.err
          | some v => ParseOutcome.ok (t, v)
  | DataSource.coinMarketCap =>
    match record.get? 0 with
    | none => ParseOutcome.oob
    | some s0 =>
      match parseTimeCMC (trimQuotes s0) with
      | none => ParseOutcome.err
      | some t =>
        match record.get? 9 with
        | none => ParseOutcome.oob
        | some s9 =>
          match parseVolume s9.trim with
          | none => ParseOutcome.err
          | some v => ParseOutcome.ok (t, v)
  | DataSource.unknown => ParseOutcome.ok (goZeroTime, 0)

/-- C10: `parseRecord` accesses fixed column indices (column 10 for
CoinMarketCap, columns 1 and 4 for CoinGecko) without a length guard, so it
never panics only under the precondition that the row has at least 10
(CoinMarketCap) resp. 4 (CoinGecko) fields; and a CoinMarketCap data row
with fewer than 10 fields whose timestamp field parses successfully reaches
the out-of-bounds access on column 10 — a runtime panic — instead of
returning a parse error.  (The CoinMarketCap reader is configured with
`FieldsPerRecord = -1`, volume.go line 192, so such short rows do reach
`parseRecord`.) -/
theorem parseRecord_index_safety :
    (∀ (pg pc : String → Option Int) (pv : String → Option Rat)
        (record : List String), 10 ≤ record.length →
      parseRecord pg pc pv record DataSource.coinMarketCap ≠ ParseOutcome.oob) ∧
    (∀ (pg pc : String → Option Int) (pv : String → Option Rat)
        (record : List String), 4 ≤ record.length →
      parseRecord pg pc pv record DataSource.coinGecko ≠ ParseOutcome.oob) ∧
    (∀ (pg pc : String → Option Int) (pv : String → Option Rat)
        (record : List String) (s0 : String) (t : Int),
      record.get? 0 = some s0 → pc (trimQuotes s0) = some t →
      record.length < 10 →
      parseRecord pg pc pv record DataSource.coinMarketCap = ParseOutcome.oob) := by
  refine ⟨?_, ?_, ?_⟩
  · intro pg pc pv record hlen
    have h0 : record.get? 0 = some (record.get ⟨0, by omega⟩) :=
      List.get?_eq_get (by omega)
    have h9 : record.get? 9 = some (record.get ⟨9, by omega⟩) :=
      List.get?_eq_get (by omega)
    simp only [parseRecord, h0, h9]
    cases pc (trimQuotes (record.get ⟨0, by omega⟩)) with
    | none => simp
    | some t =>
      cases pv (record.get ⟨9, by omega⟩).trim with
      | none => simp
      | some v => simp
  · intro pg pc pv record hlen
    have h0 : record.get? 0 = some (record.get ⟨0, by omega⟩) :=
      List.get?_eq_get (by omega)
    have h3 : record.get? 3 = some (record.get ⟨3, by omega⟩) :=
      List.get?_eq_get (by omega)
    simp only [parseRecord, h0, h3]
    cases pg (record.get ⟨0, by omega⟩) with
    | none => simp
    | some t =>
      cases pv (record.get ⟨3, by omega⟩) with
      | none => simp
      | some v => simp
  · intro pg pc pv record s0 t h0 ht hlen
    have h9 : record.get? 9 = none := List.get?_eq_none.mpr (by omega)
    simp only [parseRecord, h0, ht, h9]

/-- C10 witness: a one-field CoinMarketCap row whose timestamp field parses
successfully hits the out-of-bounds access. -/
theorem parseRecord_index_safety_witness :
    parseRecord (fun _ => none) (fun _ => some 1710201600) (fun _ => none)
      ["2024-03-12T00:00:00Z"] DataSource.coinMarketCap = ParseOutcome.oob :=
  parseRecord_index_safety.2.2 (fun _ => none) (fun _ => some 1710201600)
    (fun _ => none) ["2024-03-12T00:00:00Z"] "2024-03-12T00:00:00Z" 1710201600
    rfl rfl (by decide)

/-- Models the record-reading loop of `CalculateRollingAverages`
(volume.go lines 201-229), applied to the successfully parsed rows
`(timestamp, volume)`: a parsed row is skipped exactly when
`timestamp.After(yesterday)` holds for the raw, untruncated timestamp
(line 219); a retained row is stored as a `VolumeData` with the timestamp
truncated to its day (line 226). -/
def collectRecords (name : String) (yesterday : Int) :
    List (Int × Rat) → List VolumeData
  | [] => []
  | (t, v) :: rest =>
    if yesterday < t then collectRecords name yesterday rest
    else mkObs name (truncDay t) v :: collectRecords name yesterday rest

/-- C5 counterexample: with the cutoff day being day 0 (so `yesterday` is
the instant 0, midnight UTC of the cutoff day), a successfully parsed row
timestamped 01:00:00 on the cutoff day (instant 3600) has its calendar day
equal to the cutoff day, yet the code skips it, because the skip test
compares the raw timestamp — not the truncated calendar day — against the
cutoff instant.  This refutes the claim that every row whose calendar day
equals the cutoff day is retained regardless of its time-of-day. -/
theorem collectRecords_skips_cutoff_day_row :
    dayOf 3600 = dayOf 0 ∧ collectRecords "TOK" 0 [(3600, 5)] = [] := by
  constructor
  · decide
  · rfl

/-- C5 (amended): during orchestration, a successfully parsed row is
skipped if and only if its raw timestamp (time-of-day included) is after
`yesterday`, the midnight-UTC instant of the cutoff day; equivalently, a
row whose calendar day equals the cutoff day is retained only when its
time-of-day is exactly 00:00:00.  Every retained row is stored with its
date truncated to the calendar day. -/
theorem collectRecords_characterization (name : String) (yesterday : Int)
    (rows : List (Int × Rat)) :
    collectRecords name yesterday rows =
      (rows.filter (fun p => p.1 ≤ yesterday)).map
        (fun p => mkObs name (truncDay p.1) p.2) := by
  induction rows with
  | nil => rfl
  | cons p rest ih =>
    obtain ⟨t, v⟩ := p
    by_cases h : yesterday < t
    · have hb : ¬ (t ≤ yesterday) := by omega
      simp only [collectRecords, if_pos h, List.filter_cons, decide_eq_true_eq]
      rw [if_neg hb]
      exact ih
    · have hb : t ≤ yesterday := by omega
      simp only [collectRecords, if_neg h, List.filter_cons, decide_eq_true_eq]
      rw [if_pos hb]
      simp only [List.map_cons]
      rw [ih]

/-- Models `cutoffDate := yesterday.AddDate(0, 0, -364)` (volume.go
line 246). -/
def limitCutoff (yesterday : Int) : Int := yesterday - 364 * 86400

/-- Models the horizon-limiting filter (volume.go lines 245-253): a record
is kept iff `!record.Date.Before(cutoffDate)`. -/
def limitRecords (yesterday : Int) (records : List VolumeData) : List VolumeData :=
  records.filter (fun r => !(decide (r.date < limitCutoff yesterday)))

/-- C6: with cutoff day 0 (`yesterday` = instant 0), a record dated
exactly cutoff − 364 days (instant −31449600, day −364) lies outside the
364-day horizon `[cutoff − 363, cutoff]` — its day is before
cutoff − 363 — yet the limiting filter retains it, because the code
compares against `yesterday.AddDate(0, 0, -364)`, keeping a 365-day span
of dates.  The code's own comments ("Keep only the last 364 days of
data", "-364 for 364 days total") state the 364-day intent. -/
theorem limitRecords_keeps_365th_day :
    limitRecords 0 [mkObs "TOK" (-31449600) 5] = [mkObs "TOK" (-31449600) 5] ∧
    dayOf (-31449600) < dayOf 0 - 363 := by
  constructor
  · rfl
  · decide

/-- Insertion into a list of records that is ascending by date. -/
def insertByDate (r : VolumeData) : List VolumeData → List VolumeData
  | [] => [r]
  | x :: xs => if r.date < x.date then r :: x :: xs else x :: insertByDate r xs

/-- Models `sort.Slice(records, ...Date.Before...)` (volume.go lines
115-117 and 241-243) as an insertion sort by date.  Go's `sort.Slice` is
documented as not stable, so the relative order of equal-date records in
the source is unspecified; no theorem in this file depends on the order of
equal-date records. -/
def sortByDate : List VolumeData → List VolumeData
  | [] => []
  | x :: xs => insertByDate x (sortByDate xs)

/-- Models the map `existingDates` (volume.go lines 120-124): each record
is keyed by its calendar day (its `Format("2006-01-02")` string), later
entries overwriting earlier ones. -/
def buildExisting (l : List VolumeData) : Int → Option VolumeData :=
  l.foldl (fun m r => fun d => if d = dayOf r.date then some r else m d)
    (fun _ => none)

theorem buildExisting_aux (l : List VolumeData) :
    ∀ m0 : Int → Option VolumeData,
      (∀ d r, m0 d = some r → dayOf r.date = d) →
      ∀ d r,
        (l.foldl (fun m r => fun d => if d = dayOf r.date then some r else m d)
          m0) d = some r → dayOf r.date = d := by
  induction l with
  | nil => intro m0 h d r hm; exact h d r hm
  | cons x xs ih =>
    intro m0 h d r
    simp only [List.foldl_cons]
    apply ih
    intro d' r' hm
    by_cases hd : d' = dayOf x.date
    · rw [if_pos hd] at hm
      cases hm
      exact hd.symm
    · rw [if_neg hd] at hm
      exact h d' r' hm

/-- A record stored in the `existingDates` map under day `d` has calendar
day `d`. -/
theorem buildExisting_day (l : List VolumeData) (d : Int) (r : VolumeData)
    (h : buildExisting l d = some r) : dayOf r.date = d :=
  buildExisting_aux l (fun _ => none) (by intro d' r' h'; cases h') d r h

/-- Models the day-walk loop of `fillMissingDays` (volume.go lines
131-146): while the current instant is not after the (truncated) end
instant, emit the stored record for the current calendar day if present,
otherwise a fresh zero-volume record dated at the current instant, then
advance by 24 hours. -/
def fillWalk (existing : Int → Option VolumeData) (tokenName : String)
    (endT : Int) (current : Int) : List VolumeData :=
  if h : endT < current then []
  else
    (match existing (dayOf current) with
      | some r => r
      | none => mkObs tokenName current 0) ::
      fillWalk existing tokenName endT (current + 86400)
termination_by (endT + 86400 - current).toNat
decreasing_by
  simp_wf
  omega

/-- Models the defensive length guard of `fillMissingDays` (volume.go
lines 148-155): if more than 364 records were produced, trim from the
oldest end. -/
def fillTrim (complete : List VolumeData) : List VolumeData :=
  if complete.length ≠ 364 then
    if 364 < complete.length then complete.drop (complete.length - 364)
    else complete
  else complete

/-- Models `fillMissingDays` (volume.go lines 109-158). -/
def fillMissingDays (records : List VolumeData) (tokenName : String)
    (endDate : Int) : List VolumeData :=
  if records.isEmpty then records
  else
    fillTrim (fillWalk (buildExisting (sortByDate records)) tokenName
      (truncDay endDate) (truncDay (endDate - 363 * 86400)))

/-- The calendar day of the record emitted by the walk for day key
`dayOf c` is `dayOf c` itself. -/
theorem emit_day (m : Int → Option VolumeData)
    (hm : ∀ d r, m d = some r → dayOf r.date = d) (name : String) (c : Int) :
    dayOf (match m (dayOf c) with
      | some r => r
      | none => mkObs name c 0).date = dayOf c := by
  cases hmc : m (dayOf c) with
  | some r => simpa using hm _ _ hmc
  | none => rfl

theorem dayOf_mul (E : Int) : dayOf (86400 * E) = E := by
  unfold dayOf
  omega

/-- A strictly later calendar day means a strictly later instant. -/
theorem lt_of_dayOf_lt {a b : Int} (h : dayOf a < dayOf b) : a < b := by
  unfold dayOf at h
  omega

/-- Master lemma for the day walk: starting `n` days before the aligned
end instant `86400 * E`, the walk emits exactly `n + 1` records, the
`k`-th of which has calendar day `E - n + k`. -/
theorem fillWalk_spec (m : Int → Option VolumeData) (name : String)
    (hm : ∀ d r, m d = some r → dayOf r.date = d) (E : Int) :
    ∀ n : Nat,
      (fillWalk m name (86400 * E) (86400 * (E - n))).length = n + 1 ∧
      ∀ (k : Nat) (r : VolumeData),
        (fillWalk m name (86400 * E) (86400 * (E - n))).get? k = some r →
        dayOf r.date = E - n + k := by
  intro n
  induction n with
  | zero =>
    rw [fillWalk]
    have h1 : ¬ (86400 * E < 86400 * (E - (0 : Nat))) := by push_cast; omega
    rw [dif_neg h1]
    rw [fillWalk]
    have h2 : 86400 * E < 86400 * (E - (0 : Nat)) + 86400 := by push_cast; omega
    rw [dif_pos h2]
    refine ⟨rfl, ?_⟩
    intro k r hr
    cases k with
    | zero =>
      simp only [List.get?_cons_zero, Option.some.injEq] at hr
      subst hr
      rw [emit_day m hm]
      rw [dayOf_mul]
      push_cast
      ring
    | succ k => simp at hr
  | succ n ih =>
    rw [fillWalk]
    have h1 : ¬ (86400 * E < 86400 * (E - ((n : Int) + 1))) := by omega
    have hcast : ((n + 1 : Nat) : Int) = (n : Int) + 1 := by push_cast; ring
    rw [hcast]
    rw [dif_neg h1]
    have hstep : 86400 * (E - ((n : Int) + 1)) + 86400 = 86400 * (E - n) := by ring
    rw [hstep]
    obtain ⟨ihlen, ihget⟩ := ih
    constructor
    · simp only [List.length_cons, ihlen]
    · intro k r hr
      cases k with
      | zero =>
        simp only [List.get?_cons_zero, Option.some.injEq] at hr
        subst hr
        rw [emit_day m hm]
        rw [dayOf_mul]
        ring
      | succ k =>
        simp only [List.get?_cons_succ] at hr
        have := ihget k r hr
        rw [this]
        push_cast
        ring

theorem truncDay_sub_363 (t : Int) :
    truncDay (t - 363 * 86400) = 86400 * (dayOf t - 363) := by
  unfold truncDay dayOf
  omega

theorem fillMissingDays_eq (records : List VolumeData) (tokenName : String)
    (endDate : Int) (h : records ≠ []) :
    fillMissingDays records tokenName endDate =
      fillTrim (fillWalk (buildExisting (sortByDate records)) tokenName
        (86400 * dayOf endDate) (86400 * (dayOf endDate - 363))) := by
  unfold fillMissingDays
  rw [if_neg (by simp [h])]
  rw [truncDay_sub_363]
  rfl

/-- C1: for every non-empty record list and every end date, the densified
output has exactly 364 records; the record at index `k` has calendar day
`cutoff - 363 + k` (so consecutive records differ by exactly one calendar
day and dates are strictly ascending); the first record's calendar day is
`cutoff - 363` and the last record's calendar day is the cutoff day. -/
theorem fillMissingDays_fixed_horizon (records : List VolumeData)
    (tokenName : String) (endDate : Int) (h : records ≠ []) :
    (fillMissingDays records tokenName endDate).length = 364 ∧
    (∀ (k : Nat) (r : VolumeData),
      (fillMissingDays records tokenName endDate).get? k = some r →
      dayOf r.date = dayOf endDate - 363 + k) ∧
    (∀ (k : Nat) (r r' : VolumeData),
      (fillMissingDays records tokenName endDate).get? k = some r →
      (fillMissingDays records tokenName endDate).get? (k + 1) = some r' →
      dayOf r'.date = dayOf r.date + 1 ∧ r.date < r'.date) ∧
    dayOf ((fillMissingDays records tokenName endDate).getD 0 blankRecord).date
      = dayOf endDate - 363 ∧
    dayOf ((fillMissingDays records tokenName endDate).getD 363 blankRecord).date
      = dayOf endDate := by
  have hspec := fillWalk_spec (buildExisting (sortByDate records)) tokenName
    (buildExisting_day (sortByDate records)) (dayOf endDate) 363
  have hc : ((363 : Nat) : Int) = 363 := by norm_num
  rw [hc] at hspec
  rw [fillMissingDays_eq records tokenName endDate h]
  obtain ⟨hlen, hget⟩ := hspec
  have htrim : fillTrim (fillWalk (buildExisting (sortByDate records)) tokenName
      (86400 * dayOf endDate) (86400 * (dayOf endDate - 363))) =
      fillWalk (buildExisting (sortByDate records)) tokenName
        (86400 * dayOf endDate) (86400 * (dayOf endDate - 363)) := by
    unfold fillTrim
    rw [if_neg (by simp [hlen])]
  rw [htrim]
  refine ⟨hlen, ?_, ?_, ?_, ?_⟩
  · intro k r hr
    exact hget k r hr
  · intro k r r' hr hr'
    have h1 := hget k r hr
    have h2 := hget (k + 1) r' hr'
    constructor
    · rw [h1, h2]
      push_cast
      ring
    · apply lt_of_dayOf_lt
      rw [h1, h2]
      push_cast
      omega
  · have h0 : 0 < (fillWalk (buildExisting (sortByDate records)) tokenName
        (86400 * dayOf endDate) (86400 * (dayOf endDate - 363))).length := by
      omega
    rw [List.getD_eq_get?, List.get?_eq_get h0]
    have := hget 0 _ (List.get?_eq_get h0)
    simpa using this
  · have h363 : 363 < (fillWalk (buildExisting (sortByDate records)) tokenName
        (86400 * dayOf endDate) (86400 * (dayOf endDate - 363))).length := by
      omega
    rw [List.getD_eq_get?, List.get?_eq_get h363]
    have := hget 363 _ (List.get?_eq_get h363)
    simp only [Option.getD_some]
    rw [this]
    push_cast
    ring

/-- C1 witness: a concrete one-record input. -/
theorem fillMissingDays_fixed_horizon_witness :
    ([mkObs "TOK" 0 1] : List VolumeData) ≠ [] ∧
    (fillMissingDays [mkObs "TOK" 0 1] "TOK" 0).length = 364 :=
  ⟨List.cons_ne_nil _ _,
    (fillMissingDays_fixed_horizon [mkObs "TOK" 0 1] "TOK" 0
      (List.cons_ne_nil _ _)).1⟩

/-- Generic model of the trailing-window scan loops of
`CalculateRollingAverages` (volume.go lines 297-309 and 336-350 for the
30-day window, 364-375 and 398-411 for 90 days, 425-436 and 459-472 for
180 days; all six loops share this shape and differ only in the
accumulator update).  Starting at offset `j`: an offset `t < w` with
`t ≤ i` (Go index `i - t ≥ 0`) reads record `i - t`; if that record's date
is after `yesterday` the loop stops at once with the future flag set;
otherwise it accumulates with `step` and counts the day; offsets with
`t > i` are passed over without counting.  Returns the accumulator, the
number of days counted, and the future flag. -/
def winLoop {α : Type} (step : α → VolumeData → α) (rs : List VolumeData)
    (yesterday : Int) (i w : Nat) (j : Nat) (acc : α) (days : Nat) :
    α × Nat × Bool :=
  if h : j < w then
    if j ≤ i then
      match rs.get? (i - j) with
      | some r =>
        if yesterday < r.date then (acc, days, true)
        else winLoop step rs yesterday i w (j + 1) (step acc r) (days + 1)
      | none => winLoop step rs yesterday i w (j + 1) acc days
    else winLoop step rs yesterday i w (j + 1) acc days
  else (acc, days, false)
termination_by w - j

/-- The volume-sum accumulator (`sum += vol`). -/
def sumStep (acc : Rat) (r : VolumeData) : Rat := acc + r.volume

/-- The low-volume-day accumulator (`if vol <= 1.0 { lowVolumeDays++ }`). -/
def lowStep (acc : Nat) (r : VolumeData) : Nat :=
  if r.volume ≤ 1 then acc + 1 else acc

/-- The first (sum/average) scan loop for a window of `w` days ending at
index `i`. -/
def sumScan (rs : List VolumeData) (y : Int) (i w : Nat) : Rat × Nat × Bool :=
  winLoop sumStep rs y i w 0 0 0

/-- The second (low-volume-day counting) scan loop for a window of `w`
days ending at index `i`. -/
def lowScan (rs : List VolumeData) (y : Int) (i w : Nat) : Nat × Nat × Bool :=
  winLoop lowStep rs y i w 0 0 0

/-- One window's average/high/change-from-high computation (volume.go
lines 290-330, instantiated for each window size), given the incoming
running high `h` and the record's incoming change-from-high field value
`c0` (the code assigns that field only when the updated running high is
positive, so it otherwise keeps its incoming value).  Returns the triple
of field values `(dayAvg, high, changeFromHigh)` together with the updated
running high. -/
def updateHigh (h avg : Rat) : Rat := if h < avg then avg else h

/-- The conditional change-from-high assignment: the field is written only
when the updated running high is positive, otherwise it keeps its incoming
value `c0`. -/
def changeVal (avg h' c0 : Rat) : Rat :=
  if 0 < h' then ((avg - h') / h') * 100 else c0

def windowAvgFields (rs : List VolumeData) (y : Int) (i w : Nat)
    (h c0 : Rat) : (Rat × Rat × Rat) × Rat :=
  match sumScan rs y i w with
  | (sum, days, fut) =>
    if fut || decide (days < w) then ((0, 0, 0), h)
    else
      ((sum / (days : Rat),
        updateHigh h (sum / (days : Rat)),
        changeVal (sum / (days : Rat)) (updateHigh h (sum / (days : Rat))) c0),
       updateHigh h (sum / (days : Rat)))

/-- One window's low-volume-day field (volume.go lines 332-355,
instantiated for each window size). -/
def windowLowField (rs : List VolumeData) (y : Int) (i w : Nat) : Nat :=
  match lowScan rs y i w with
  | (cnt, days, fut) => if fut || decide (days < w) then 0 else cnt

/-- All twelve derived fields zeroed, as in the future-date branch of the
main loop (volume.go lines 274-288) and the writer's future re-zeroing
(lines 517-531). -/
def zeroed (r : VolumeData) : VolumeData :=
  { r with
    dayAvg30 := 0
    dayAvg90 := 0
    dayAvg180 := 0
    lowVolumeDays30 := 0
    lowVolumeDays90 := 0
    lowVolumeDays180 := 0
    high30 := 0
    high90 := 0
    high180 := 0
    changeFromHighAvg30 := 0
    changeFromHighAvg90 := 0
    changeFromHighAvg180 := 0 }

/-- The enriched record produced at index `i` by one iteration of the main
loop of `CalculateRollingAverages` (volume.go lines 272-478), given the
incoming running highs `(highestAvg30, highestAvg90, highestAvg180)`. -/
def recordAt (rs : List VolumeData) (y : Int) (i : Nat)
    (hs : Rat × Rat × Rat) : VolumeData :=
  if y < (rs.getD i blankRecord).date then zeroed (rs.getD i blankRecord)
  else
    match windowAvgFields rs y i 30 hs.1
            (rs.getD i blankRecord).changeFromHighAvg30,
          windowAvgFields rs y i 90 hs.2.1
            (rs.getD i blankRecord).changeFromHighAvg90,
          windowAvgFields rs y i 180 hs.2.2
            (rs.getD i blankRecord).changeFromHighAvg180 with
    | ((a30, g30, c30), _), ((a90, g90, c90), _), ((a180, g180, c180), _) =>
      { rs.getD i blankRecord with
        dayAvg30 := a30
        high30 := g30
        changeFromHighAvg30 := c30
        lowVolumeDays30 := windowLowField rs y i 30
        dayAvg90 := a90
        high90 := g90
        changeFromHighAvg90 := c90
        lowVolumeDays90 := windowLowField rs y i 90
        dayAvg180 := a180
        high180 := g180
        changeFromHighAvg180 := c180
        lowVolumeDays180 := windowLowField rs y i 180 }

/-- The running highs after the main-loop iteration at index `i` (the
future-date branch leaves them untouched; an incomplete window leaves the
corresponding high untouched; a complete window raises it to the new
average if larger). -/
def stepHighs (rs : List VolumeData) (y : Int) (i : Nat)
    (hs : Rat × Rat × Rat) : Rat × Rat × Rat :=
  if y < (rs.getD i blankRecord).date then hs
  else
    ((windowAvgFields rs y i 30 hs.1
        (rs.getD i blankRecord).changeFromHighAvg30).2,
     (windowAvgFields rs y i 90 hs.2.1
        (rs.getD i blankRecord).changeFromHighAvg90).2,
     (windowAvgFields rs y i 180 hs.2.2
        (rs.getD i blankRecord).changeFromHighAvg180).2)

/-- The main statistics loop of `CalculateRollingAverages` (volume.go
lines 269-478), processing indices from `i` upwards while threading the
three running highs. -/
def enrichLoop (rs : List VolumeData) (y : Int) (i : Nat)
    (hs : Rat × Rat × Rat) : List VolumeData :=
  if i < rs.length then
    recordAt rs y i hs :: enrichLoop rs y (i + 1) (stepHighs rs y i hs)
  else []
termination_by rs.length - i

/-- The full rolling-statistics pass: all indices processed in ascending
order, running highs initialised to zero. -/
def calcRecords (rs : List VolumeData) (y : Int) : List VolumeData :=
  enrichLoop rs y 0 (0, 0, 0)

/-- The running highs before the main-loop iteration at index `i`. -/
def highsAt (rs : List VolumeData) (y : Int) : Nat → Rat × Rat × Rat
  | 0 => (0, 0, 0)
  | i + 1 => stepHighs rs y i (highsAt rs y i)

/-- Claim-side definedness condition for the `w`-day window ending at
index `i`: at least `w` contiguous days exist at or before `i` within the
sequence, and none of those days is after the cutoff. -/
def winOk (rs : List VolumeData) (y : Int) (i w : Nat) : Prop :=
  w ≤ i + 1 ∧ ∀ t, t < w → (rs.getD (i - t) blankRecord).date ≤ y

instance winOk_decidable (rs : List VolumeData) (y : Int) (i w : Nat) :
    Decidable (winOk rs y i w) := by
  unfold winOk
  infer_instance

/-- Claim-side window sum: the sum of the `w` volumes at indices
`i - w + 1 .. i` (enumerated from the top). -/
def windowSum (rs : List VolumeData) (i w : Nat) : Rat :=
  ((List.range w).map (fun t => (rs.getD (i - t) blankRecord).volume)).sum

theorem get?_eq_getD {l : List VolumeData} {n : Nat} (h : n < l.length) :
    l.get? n = some (l.getD n blankRecord) := by
  rw [List.get?_eq_get h, List.getD_eq_get l blankRecord h]

/-- The day count and future flag of a window scan do not depend on the
accumulator or on the accumulation function. -/
theorem winLoop_snd {α β : Type} (step₁ : α → VolumeData → α)
    (step₂ : β → VolumeData → β) (rs : List VolumeData) (y : Int)
    (i w : Nat) :
    ∀ (n j : Nat), w - j = n → ∀ (a : α) (b : β) (days : Nat),
      (winLoop step₁ rs y i w j a days).2 =
        (winLoop step₂ rs y i w j b days).2 := by
  intro n
  induction n with
  | zero =>
    intro j hj a b days
    conv_lhs => rw [winLoop]
    conv_rhs => rw [winLoop]
    simp only [dif_neg (show ¬ j < w by omega)]
  | succ n ih =>
    intro j hj a b days
    conv_lhs => rw [winLoop]
    conv_rhs => rw [winLoop]
    simp only [dif_pos (show j < w by omega)]
    by_cases h2 : j ≤ i
    · simp only [if_pos h2]
      cases hg : rs.get? (i - j) with
      | some r =>
        simp only [hg]
        by_cases h3 : y < r.date
        · simp only [if_pos h3]
        · simp only [if_neg h3]
          exact ih (j + 1) (by omega) _ _ _
      | none =>
        simp only [hg]
        exact ih (j + 1) (by omega) _ _ _
    · simp only [if_neg h2]
      exact ih (j + 1) (by omega) _ _ _

/-- When no scanned day (at a valid index) is after the cutoff, the scan
never breaks: the future flag is false and the day count grows by the
number of valid offsets. -/
theorem winLoop_noFuture {α : Type} (step : α → VolumeData → α)
    (rs : List VolumeData) (y : Int) (i w : Nat) (hi : i < rs.length) :
    ∀ (n j : Nat), w - j = n →
      (∀ t, j ≤ t → t ≤ i → (rs.getD (i - t) blankRecord).date ≤ y) →
      ∀ (a : α) (days : Nat),
        (winLoop step rs y i w j a days).2.1 = days + (min w (i + 1) - j) ∧
        (winLoop step rs y i w j a days).2.2 = false := by
  intro n
  induction n with
  | zero =>
    intro j hj hnf a days
    rw [winLoop]
    simp only [dif_neg (show ¬ j < w by omega)]
    refine ⟨?_, ?_⟩
    · show days = days + (min w (i + 1) - j)
      omega
    · trivial
  | succ n ih =>
    intro j hj hnf a days
    rw [winLoop]
    simp only [dif_pos (show j < w by omega)]
    by_cases h2 : j ≤ i
    · simp only [if_pos h2]
      rw [get?_eq_getD (show i - j < rs.length by omega)]
      have hnotfut : ¬ y < (rs.getD (i - j) blankRecord).date := by
        have := hnf j (le_refl j) h2
        omega
      simp only [if_neg hnotfut]
      have := ih (j + 1) (by omega) (fun t ht hti => hnf t (by omega) hti)
        (step a (rs.getD (i - j) blankRecord)) (days + 1)
      refine ⟨?_, this.2⟩
      rw [this.1]
      omega
    · simp only [if_neg h2]
      have := ih (j + 1) (by omega) (fun t ht hti => hnf t (by omega) hti)
        a days
      refine ⟨?_, this.2⟩
      rw [this.1]
      omega

/-- When some scanned day at a valid offset is after the cutoff, the scan
breaks with the future flag set. -/
theorem winLoop_future {α : Type} (step : α → VolumeData → α)
    (rs : List VolumeData) (y : Int) (i w : Nat) (hi : i < rs.length) :
    ∀ (n j : Nat), w - j = n →
      (∃ t, j ≤ t ∧ t < w ∧ t ≤ i ∧
        y < (rs.getD (i - t) blankRecord).date) →
      ∀ (a : α) (days : Nat),
        (winLoop step rs y i w j a days).2.2 = true := by
  intro n
  induction n with
  | zero =>
    intro j hj hex a days
    obtain ⟨t, h1, h2, _, _⟩ := hex
    omega
  | succ n ih =>
    intro j hj hex a days
    obtain ⟨t, hjt, htw, hti, hfut⟩ := hex
    conv_lhs => rw [winLoop]
    simp only [dif_pos (show j < w by omega)]
    rw [if_pos (show j ≤ i by omega)]
    rw [get?_eq_getD (show i - j < rs.length by omega)]
    by_cases hf : y < (rs.getD (i - j) blankRecord).date
    · simp only [if_pos hf]
    · simp only [if_neg hf]
      have hjt' : j ≠ t := by
        intro he
        exact hf (he ▸ hfut)
      exact ih (j + 1) (by omega) ⟨t, by omega, htw, hti, hfut⟩ _ _

theorem foldl_sumStep (l : List VolumeData) :
    ∀ a : Rat, List.foldl sumStep a l = a + (l.map VolumeData.volume).sum := by
  induction l with
  | nil => intro a; simp
  | cons x xs ih =>
    intro a
    simp only [List.foldl_cons, List.map_cons, List.sum_cons]
    rw [ih]
    show a + x.volume + _ = _
    ring

/-- When the window is complete (all `w` offsets valid and none after the
cutoff), the scan accumulates exactly over the records at offsets
`j .. w - 1` in order. -/
theorem winLoop_complete {α : Type} (step : α → VolumeData → α)
    (rs : List VolumeData) (y : Int) (i w : Nat) (hi : i < rs.length)
    (hw : w ≤ i + 1) :
    ∀ (n j : Nat), w - j = n →
      (∀ t, j ≤ t → t < w → (rs.getD (i - t) blankRecord).date ≤ y) →
      ∀ (a : α) (days : Nat),
        winLoop step rs y i w j a days =
          (List.foldl step a ((List.range n).map
            (fun s => rs.getD (i - (j + s)) blankRecord)),
           days + n, false) := by
  intro n
  induction n with
  | zero =>
    intro j hj hnf a days
    rw [winLoop, dif_neg (by omega)]
    simp
  | succ n ih =>
    intro j hj hnf a days
    have hjw : j < w := by omega
    rw [winLoop, dif_pos hjw]
    rw [if_pos (show j ≤ i by omega)]
    rw [get?_eq_getD (show i - j < rs.length by omega)]
    have hnotfut : ¬ y < (rs.getD (i - j) blankRecord).date := by
      have := hnf j (le_refl j) hjw
      omega
    simp only [if_neg hnotfut]
    rw [ih (j + 1) (by omega) (fun t ht htw => hnf t (by omega) htw) _ (days + 1)]
    have hlist : (List.range (n + 1)).map
        (fun s => rs.getD (i - (j + s)) blankRecord) =
        rs.getD (i - j) blankRecord :: (List.range n).map
          (fun s => rs.getD (i - (j + 1 + s)) blankRecord) := by
      rw [List.range_succ_eq_map]
      simp only [List.map_cons, List.map_map, Nat.add_zero]
      congr 1
      apply List.map_congr_left
      intro s _
      simp only [Function.comp_apply]
      congr 1
      omega
    rw [hlist, List.foldl_cons]
    have harith : days + 1 + n = days + (n + 1) := by omega
    rw [harith]

/-- A complete window's sum scan: the accumulator is the window sum, all
`w` days are counted and no future day was met. -/
theorem sumScan_complete (rs : List VolumeData) (y : Int) (i w : Nat)
    (hi : i < rs.length) (hok : winOk rs y i w) :
    sumScan rs y i w = (windowSum rs i w, w, false) := by
  obtain ⟨hw, hdates⟩ := hok
  rw [sumScan]
  rw [winLoop_complete sumStep rs y i w hi hw w 0 rfl
    (fun t _ ht => hdates t ht) 0 0]
  rw [foldl_sumStep]
  unfold windowSum
  simp [List.map_map, Function.comp_def]

theorem lowScan_snd_eq (rs : List VolumeData) (y : Int) (i w : Nat) :
    (lowScan rs y i w).2 = (sumScan rs y i w).2 :=
  winLoop_snd lowStep sumStep rs y i w w 0 rfl 0 0 0

/-- If the claim-side definedness condition fails, the sum scan either
meets a future day or counts fewer than `w` days. -/
theorem scan_incomplete (rs : List VolumeData) (y : Int) (i w : Nat)
    (hi : i < rs.length) (hnot : ¬ winOk rs y i w) :
    (sumScan rs y i w).2.2 = true ∨ (sumScan rs y i w).2.1 < w := by
  by_cases hfut : ∃ t, t < w ∧ t ≤ i ∧
      y < (rs.getD (i - t) blankRecord).date
  · left
    obtain ⟨t, h1, h2, h3⟩ := hfut
    rw [sumScan]
    exact winLoop_future sumStep rs y i w hi w 0 rfl
      ⟨t, Nat.zero_le t, h1, h2, h3⟩ 0 0
  · right
    push_neg at hfut
    have hshort : i + 1 < w := by
      by_contra hge
      push_neg at hge
      apply hnot
      refine ⟨hge, fun t htw => ?_⟩
      exact hfut t htw (by omega)
    have hnf : ∀ t, 0 ≤ t → t ≤ i →
        (rs.getD (i - t) blankRecord).date ≤ y :=
      fun t _ hti => hfut t (by omega) hti
    have hdays := (winLoop_noFuture sumStep rs y i w hi w 0 rfl hnf 0 0).1
    rw [sumScan, hdays]
    omega

/-- A window whose scan is incomplete yields all-zero average fields and
leaves the running high untouched. -/
theorem windowAvgFields_zero (rs : List VolumeData) (y : Int) (i w : Nat)
    (h c0 : Rat)
    (hcond : (sumScan rs y i w).2.2 = true ∨ (sumScan rs y i w).2.1 < w) :
    windowAvgFields rs y i w h c0 = ((0, 0, 0), h) := by
  unfold windowAvgFields
  rcases hsc : sumScan rs y i w with ⟨s, d, f⟩
  rw [hsc] at hcond
  simp only at hcond
  dsimp only
  have hc : (f || decide (d < w)) = true := by
    rcases hcond with hc | hc
    · simp [hc]
    · simp [hc]
  rw [if_pos hc]

/-- A complete window's average fields. -/
theorem windowAvgFields_complete (rs : List VolumeData) (y : Int)
    (i w : Nat) (h c0 : Rat) (hi : i < rs.length) (hok : winOk rs y i w) :
    windowAvgFields rs y i w h c0 =
      ((windowSum rs i w / (w : Rat),
        updateHigh h (windowSum rs i w / (w : Rat)),
        changeVal (windowSum rs i w / (w : Rat))
          (updateHigh h (windowSum rs i w / (w : Rat))) c0),
       updateHigh h (windowSum rs i w / (w : Rat))) := by
  unfold windowAvgFields
  rw [sumScan_complete rs y i w hi hok]
  dsimp only
  rw [if_neg (by simp)]

/-- A window whose scan is incomplete yields a zero low-volume-day
count. -/
theorem windowLowField_zero (rs : List VolumeData) (y : Int) (i w : Nat)
    (hcond : (sumScan rs y i w).2.2 = true ∨ (sumScan rs y i w).2.1 < w) :
    windowLowField rs y i w = 0 := by
  unfold windowLowField
  have hsnd := lowScan_snd_eq rs y i w
  rcases hsc : lowScan rs y i w with ⟨c, d, f⟩
  rw [hsc] at hsnd
  rw [← hsnd] at hcond
  simp only at hcond
  dsimp only
  have hc : (f || decide (d < w)) = true := by
    rcases hcond with hc | hc
    · simp [hc]
    · simp [hc]
  rw [if_pos hc]

/-- The updated running high never decreases. -/
theorem le_windowAvgFields_high (rs : List VolumeData) (y : Int)
    (i w : Nat) (h c0 : Rat) : h ≤ (windowAvgFields rs y i w h c0).2 := by
  unfold windowAvgFields
  rcases hsc : sumScan rs y i w with ⟨s, d, f⟩
  dsimp only
  by_cases hc : (f || decide (d < w)) = true
  · rw [if_pos hc]
  · rw [if_neg hc]
    unfold updateHigh
    by_cases hlt : h < s / (d : Rat)
    · rw [if_pos hlt]
      exact le_of_lt hlt
    · rw [if_neg hlt]

theorem stepHighs_le (rs : List VolumeData) (y : Int) (i : Nat)
    (hs : Rat × Rat × Rat) :
    hs.1 ≤ (stepHighs rs y i hs).1 ∧
    hs.2.1 ≤ (stepHighs rs y i hs).2.1 ∧
    hs.2.2 ≤ (stepHighs rs y i hs).2.2 := by
  unfold stepHighs
  by_cases hf : y < (rs.getD i blankRecord).date
  · rw [if_pos hf]
    exact ⟨le_refl _, le_refl _, le_refl _⟩
  · rw [if_neg hf]
    exact ⟨le_windowAvgFields_high rs y i 30 hs.1 _,
      le_windowAvgFields_high rs y i 90 hs.2.1 _,
      le_windowAvgFields_high rs y i 180 hs.2.2 _⟩

/-- The running highs are monotone along the main loop. -/
theorem highsAt_mono (rs : List VolumeData) (y : Int) :
    ∀ i j : Nat, i ≤ j →
      (highsAt rs y i).1 ≤ (highsAt rs y j).1 ∧
      (highsAt rs y i).2.1 ≤ (highsAt rs y j).2.1 ∧
      (highsAt rs y i).2.2 ≤ (highsAt rs y j).2.2 := by
  intro i j hij
  induction j with
  | zero =>
    have h0 : i = 0 := by omega
    subst h0
    exact ⟨le_refl _, le_refl _, le_refl _⟩
  | succ j ih =>
    by_cases hie : i = j + 1
    · subst hie
      exact ⟨le_refl _, le_refl _, le_refl _⟩
    · have h1 := ih (by omega)
      have h2 := stepHighs_le rs y j (highsAt rs y j)
      exact ⟨le_trans h1.1 h2.1, le_trans h1.2.1 h2.2.1,
        le_trans h1.2.2 h2.2.2⟩

/-- The running highs are never negative. -/
theorem highsAt_nonneg (rs : List VolumeData) (y : Int) (i : Nat) :
    0 ≤ (highsAt rs y i).1 ∧ 0 ≤ (highsAt rs y i).2.1 ∧
      0 ≤ (highsAt rs y i).2.2 := by
  have := highsAt_mono rs y 0 i (Nat.zero_le i)
  exact this

theorem enrichLoop_get (rs : List VolumeData) (y : Int) :
    ∀ (k i : Nat), i + k < rs.length →
      (enrichLoop rs y i (highsAt rs y i)).get? k =
        some (recordAt rs y (i + k) (highsAt rs y (i + k))) := by
  intro k
  induction k with
  | zero =>
    intro i hi
    rw [enrichLoop, if_pos (by omega)]
    simp
  | succ k ih =>
    intro i hi
    rw [enrichLoop, if_pos (by omega)]
    simp only [List.get?_cons_succ]
    have hstep : stepHighs rs y i (highsAt rs y i) = highsAt rs y (i + 1) := rfl
    rw [hstep]
    have hrec := ih (i + 1) (by omega)
    have harith : i + 1 + k = i + (k + 1) := by omega
    rw [harith] at hrec
    exact hrec

/-- The record of the full pass at index `i` is the single-iteration
record with the running highs accumulated over indices `0 .. i - 1`. -/
theorem calcRecords_getD (rs : List VolumeData) (y : Int) (i : Nat)
    (hi : i < rs.length) :
    (calcRecords rs y).getD i blankRecord =
      recordAt rs y i (highsAt rs y i) := by
  have h := enrichLoop_get rs y i 0 (by omega)
  simp only [Nat.zero_add] at h
  rw [List.getD_eq_get?]
  rw [calcRecords]
  have h0 : (0, 0, 0) = highsAt rs y 0 := rfl
  rw [h0, h]
  rfl

theorem recordAt_future (rs : List VolumeData) (y : Int) (i : Nat)
    (hs : Rat × Rat × Rat) (hf : y < (rs.getD i blankRecord).date) :
    recordAt rs y i hs = zeroed (rs.getD i blankRecord) := by
  unfold recordAt
  rw [if_pos hf]

/-- Field-level description of a non-future main-loop iteration. -/
theorem recordAt_fields (rs : List VolumeData) (y : Int) (i : Nat)
    (hs : Rat × Rat × Rat) (hf : ¬ y < (rs.getD i blankRecord).date) :
    (recordAt rs y i hs).dayAvg30 = (windowAvgFields rs y i 30 hs.1
      (rs.getD i blankRecord).changeFromHighAvg30).1.1 ∧
    (recordAt rs y i hs).high30 = (windowAvgFields rs y i 30 hs.1
      (rs.getD i blankRecord).changeFromHighAvg30).1.2.1 ∧
    (recordAt rs y i hs).changeFromHighAvg30 = (windowAvgFields rs y i 30 hs.1
      (rs.getD i blankRecord).changeFromHighAvg30).1.2.2 ∧
    (recordAt rs y i hs).lowVolumeDays30 = windowLowField rs y i 30 ∧
    (recordAt rs y i hs).dayAvg90 = (windowAvgFields rs y i 90 hs.2.1
      (rs.getD i blankRecord).changeFromHighAvg90).1.1 ∧
    (recordAt rs y i hs).high90 = (windowAvgFields rs y i 90 hs.2.1
      (rs.getD i blankRecord).changeFromHighAvg90).1.2.1 ∧
    (recordAt rs y i hs).changeFromHighAvg90 = (windowAvgFields rs y i 90 hs.2.1
      (rs.getD i blankRecord).changeFromHighAvg90).1.2.2 ∧
    (recordAt rs y i hs).lowVolumeDays90 = windowLowField rs y i 90 ∧
    (recordAt rs y i hs).dayAvg180 = (windowAvgFields rs y i 180 hs.2.2
      (rs.getD i blankRecord).changeFromHighAvg180).1.1 ∧
    (recordAt rs y i hs).high180 = (windowAvgFields rs y i 180 hs.2.2
      (rs.getD i blankRecord).changeFromHighAvg180).1.2.1 ∧
    (recordAt rs y i hs).changeFromHighAvg180 = (windowAvgFields rs y i 180 hs.2.2
      (rs.getD i blankRecord).changeFromHighAvg180).1.2.2 ∧
    (recordAt rs y i hs).lowVolumeDays180 = windowLowField rs y i 180 := by
  unfold recordAt
  rw [if_neg hf]
  rcases h30 : windowAvgFields rs y i 30 hs.1
    (rs.getD i blankRecord).changeFromHighAvg30 with ⟨⟨a30, g30, c30⟩, n30⟩
  rcases h90 : windowAvgFields rs y i 90 hs.2.1
    (rs.getD i blankRecord).changeFromHighAvg90 with ⟨⟨a90, g90, c90⟩, n90⟩
  rcases h180 : windowAvgFields rs y i 180 hs.2.2
    (rs.getD i blankRecord).changeFromHighAvg180 with ⟨⟨a180, g180, c180⟩, n180⟩
  dsimp only
  exact ⟨rfl, rfl, rfl, rfl, rfl, rfl, rfl, rfl, rfl, rfl, rfl, rfl⟩

/-- C2: for each window size `w ∈ {30, 90, 180}` and each index of the
sequence, the derived `w`-fields are non-trivially defined only when at
least `w` contiguous days exist at or before the index and none of them is
after the cutoff; otherwise the day average, running high, change-from-high
and low-volume-day count for that window are all exactly 0; in the defined
case the day average equals the sum of the `w` volumes at indices
`i - w + 1 .. i` divided by `w`. -/
theorem calcRecords_window_defined (rs : List VolumeData) (y : Int)
    (i : Nat) (hi : i < rs.length) :
    ((¬ winOk rs y i 30 →
        ((calcRecords rs y).getD i blankRecord).dayAvg30 = 0 ∧
        ((calcRecords rs y).getD i blankRecord).high30 = 0 ∧
        ((calcRecords rs y).getD i blankRecord).changeFromHighAvg30 = 0 ∧
        ((calcRecords rs y).getD i blankRecord).lowVolumeDays30 = 0) ∧
      (winOk rs y i 30 →
        ((calcRecords rs y).getD i blankRecord).dayAvg30 =
          windowSum rs i 30 / 30)) ∧
    ((¬ winOk rs y i 90 →
        ((calcRecords rs y).getD i blankRecord).dayAvg90 = 0 ∧
        ((calcRecords rs y).getD i blankRecord).high90 = 0 ∧
        ((calcRecords rs y).getD i blankRecord).changeFromHighAvg90 = 0 ∧
        ((calcRecords rs y).getD i blankRecord).lowVolumeDays90 = 0) ∧
      (winOk rs y i 90 →
        ((calcRecords rs y).getD i blankRecord).dayAvg90 =
          windowSum rs i 90 / 90)) ∧
    ((¬ winOk rs y i 180 →
        ((calcRecords rs y).getD i blankRecord).dayAvg180 = 0 ∧
        ((calcRecords rs y).getD i blankRecord).high180 = 0 ∧
        ((calcRecords rs y).getD i blankRecord).changeFromHighAvg180 = 0 ∧
        ((calcRecords rs y).getD i blankRecord).lowVolumeDays180 = 0) ∧
      (winOk rs y i 180 →
        ((calcRecords rs y).getD i blankRecord).dayAvg180 =
          windowSum rs i 180 / 180)) := by
  rw [calcRecords_getD rs y i hi]
  by_cases hf : y < (rs.getD i blankRecord).date
  · rw [recordAt_future rs y i _ hf]
    have hnotok : ∀ w : Nat, 0 < w → ¬ winOk rs y i w := by
      intro w hw0 hok
      have := hok.2 0 hw0
      simp only [Nat.sub_zero] at this
      omega
    refine ⟨⟨fun _ => ⟨rfl, rfl, rfl, rfl⟩, fun hok => absurd hok (hnotok 30 (by norm_num))⟩,
      ⟨fun _ => ⟨rfl, rfl, rfl, rfl⟩, fun hok => absurd hok (hnotok 90 (by norm_num))⟩,
      ⟨fun _ => ⟨rfl, rfl, rfl, rfl⟩, fun hok => absurd hok (hnotok 180 (by norm_num))⟩⟩
  · obtain ⟨f1, f2, f3, f4, g1, g2, g3, g4, k1, k2, k3, k4⟩ :=
      recordAt_fields rs y i (highsAt rs y i) hf
    refine ⟨⟨fun hnot => ?_, fun hok => ?_⟩,
      ⟨fun hnot => ?_, fun hok => ?_⟩, ⟨fun hnot => ?_, fun hok => ?_⟩⟩
    · have hcond := scan_incomplete rs y i 30 hi hnot
      rw [f1, f2, f3, f4, windowAvgFields_zero rs y i 30 _ _ hcond,
        windowLowField_zero rs y i 30 hcond]
      exact ⟨rfl, rfl, rfl, rfl⟩
    · rw [f1, windowAvgFields_complete rs y i 30 _ _ hi hok]
      norm_num
    · have hcond := scan_incomplete rs y i 90 hi hnot
      rw [g1, g2, g3, g4, windowAvgFields_zero rs y i 90 _ _ hcond,
        windowLowField_zero rs y i 90 hcond]
      exact ⟨rfl, rfl, rfl, rfl⟩
    · rw [g1, windowAvgFields_complete rs y i 90 _ _ hi hok]
      norm_num
    · have hcond := scan_incomplete rs y i 180 hi hnot
      rw [k1, k2, k3, k4, windowAvgFields_zero rs y i 180 _ _ hcond,
        windowLowField_zero rs y i 180 hcond]
      exact ⟨rfl, rfl, rfl, rfl⟩
    · rw [k1, windowAvgFields_complete rs y i 180 _ _ hi hok]
      norm_num

/-- C2 witness: a single-record sequence (index 0 has no complete
window). -/
theorem calcRecords_window_defined_witness :
    0 < ([mkObs "TOK" 0 1] : List VolumeData).length ∧
    (¬ winOk [mkObs "TOK" 0 1] 0 0 30 →
      ((calcRecords [mkObs "TOK" 0 1] 0).getD 0 blankRecord).dayAvg30 = 0 ∧
      ((calcRecords [mkObs "TOK" 0 1] 0).getD 0 blankRecord).high30 = 0 ∧
      ((calcRecords [mkObs "TOK" 0 1] 0).getD 0 blankRecord).changeFromHighAvg30 = 0 ∧
      ((calcRecords [mkObs "TOK" 0 1] 0).getD 0 blankRecord).lowVolumeDays30 = 0) :=
  ⟨by decide,
    (calcRecords_window_defined [mkObs "TOK" 0 1] 0 0 (by decide)).1.1⟩

theorem winOk_not_future (rs : List VolumeData) (y : Int) (i w : Nat)
    (hw0 : 0 < w) (hok : winOk rs y i w) :
    ¬ y < (rs.getD i blankRecord).date := by
  have := hok.2 0 hw0
  simp only [Nat.sub_zero] at this
  omega

/-- At an index whose 30-day window is defined, the stored 30-day high
equals the running high after that iteration. -/
theorem high30_at_defined (rs : List VolumeData) (y : Int) (i : Nat)
    (hi : i < rs.length) (hok : winOk rs y i 30) :
    ((calcRecords rs y).getD i blankRecord).high30 =
      (highsAt rs y (i + 1)).1 := by
  have hf := winOk_not_future rs y i 30 (by norm_num) hok
  rw [calcRecords_getD rs y i hi]
  obtain ⟨_, f2, _⟩ := recordAt_fields rs y i (highsAt rs y i) hf
  rw [f2]
  have hc := windowAvgFields_complete rs y i 30 (highsAt rs y i).1
    (rs.getD i blankRecord).changeFromHighAvg30 hi hok
  rw [hc]
  show _ = (stepHighs rs y i (highsAt rs y i)).1
  unfold stepHighs
  rw [if_neg hf, hc]

/-- At an index whose 90-day window is defined, the stored 90-day high
equals the running high after that iteration. -/
theorem high90_at_defined (rs : List VolumeData) (y : Int) (i : Nat)
    (hi : i < rs.length) (hok : winOk rs y i 90) :
    ((calcRecords rs y).getD i blankRecord).high90 =
      (highsAt rs y (i + 1)).2.1 := by
  have hf := winOk_not_future rs y i 90 (by norm_num) hok
  rw [calcRecords_getD rs y i hi]
  obtain ⟨_, _, _, _, _, f6, _⟩ := recordAt_fields rs y i (highsAt rs y i) hf
  rw [f6]
  have hc := windowAvgFields_complete rs y i 90 (highsAt rs y i).2.1
    (rs.getD i blankRecord).changeFromHighAvg90 hi hok
  rw [hc]
  show _ = (stepHighs rs y i (highsAt rs y i)).2.1
  unfold stepHighs
  rw [if_neg hf, hc]

/-- At an index whose 180-day window is defined, the stored 180-day high
equals the running high after that iteration. -/
theorem high180_at_defined (rs : List VolumeData) (y : Int) (i : Nat)
    (hi : i < rs.length) (hok : winOk rs y i 180) :
    ((calcRecords rs y).getD i blankRecord).high180 =
      (highsAt rs y (i + 1)).2.2 := by
  have hf := winOk_not_future rs y i 180 (by norm_num) hok
  rw [calcRecords_getD rs y i hi]
  obtain ⟨_, _, _, _, _, _, _, _, _, f10, _⟩ :=
    recordAt_fields rs y i (highsAt rs y i) hf
  rw [f10]
  have hc := windowAvgFields_complete rs y i 180 (highsAt rs y i).2.2
    (rs.getD i blankRecord).changeFromHighAvg180 hi hok
  rw [hc]
  show _ = (stepHighs rs y i (highsAt rs y i)).2.2
  unfold stepHighs
  rw [if_neg hf, hc]

/-- C3: for each window size `w ∈ {30, 90, 180}` and all indices
`i ≤ j` of one series' enriched sequence whose `w`-day windows are both
defined (complete and non-future), the stored running high at `i` is at
most the stored running high at `j`: the running high is non-decreasing
over ascending dates within one series' computation. -/
theorem calcRecords_high_monotone (rs : List VolumeData) (y : Int)
    (i j : Nat) (hij : i ≤ j) (hj : j < rs.length) :
    (winOk rs y i 30 → winOk rs y j 30 →
      ((calcRecords rs y).getD i blankRecord).high30 ≤
        ((calcRecords rs y).getD j blankRecord).high30) ∧
    (winOk rs y i 90 → winOk rs y j 90 →
      ((calcRecords rs y).getD i blankRecord).high90 ≤
        ((calcRecords rs y).getD j blankRecord).high90) ∧
    (winOk rs y i 180 → winOk rs y j 180 →
      ((calcRecords rs y).getD i blankRecord).high180 ≤
        ((calcRecords rs y).getD j blankRecord).high180) := by
  have hi : i < rs.length := by omega
  refine ⟨fun hoki hokj => ?_, fun hoki hokj => ?_, fun hoki hokj => ?_⟩
  · rw [high30_at_defined rs y i hi hoki, high30_at_defined rs y j hj hokj]
    exact (highsAt_mono rs y (i + 1) (j + 1) (by omega)).1
  · rw [high90_at_defined rs y i hi hoki, high90_at_defined rs y j hj hokj]
    exact (highsAt_mono rs y (i + 1) (j + 1) (by omega)).2.1
  · rw [high180_at_defined rs y i hi hoki, high180_at_defined rs y j hj hokj]
    exact (highsAt_mono rs y (i + 1) (j + 1) (by omega)).2.2

/-- C3 witness: thirty cutoff-day records make index 29 a defined 30-day
window. -/
theorem calcRecords_high_monotone_witness :
    29 ≤ 29 ∧ 29 < (List.replicate 30 (mkObs "TOK" 0 1)).length ∧
    winOk (List.replicate 30 (mkObs "TOK" 0 1)) 0 29 30 ∧
    ((calcRecords (List.replicate 30 (mkObs "TOK" 0 1)) 0).getD 29
        blankRecord).high30 ≤
      ((calcRecords (List.replicate 30 (mkObs "TOK" 0 1)) 0).getD 29
        blankRecord).high30 :=
  ⟨le_refl 29, by decide, by decide,
    (calcRecords_high_monotone (List.replicate 30 (mkObs "TOK" 0 1)) 0 29 29
      (le_refl 29) (by decide)).1 (by decide) (by decide)⟩

theorem le_updateHigh (h avg : Rat) : avg ≤ updateHigh h avg := by
  unfold updateHigh
  by_cases hlt : h < avg
  · rw [if_pos hlt]
  · rw [if_neg hlt]
    exact le_of_not_lt hlt

/-- The change value written for a positive updated high is nonpositive
when today's average is at most the high. -/
theorem changeVal_nonpos (avg h' c0 : Rat) (havg : avg ≤ h') (hpos : 0 < h') :
    changeVal avg h' c0 ≤ 0 := by
  unfold changeVal
  rw [if_pos hpos]
  have hnum : avg - h' ≤ 0 := by linarith
  have hq : (avg - h') / h' ≤ 0 :=
    div_nonpos_of_nonpos_of_nonneg hnum (le_of_lt hpos)
  linarith

/-- C4: for each window size `w ∈ {30, 90, 180}` and each index of one
series' enriched sequence (whose base records carry zero change-from-high
fields, as produced by parsing and densification), whenever the stored
running high is positive the stored change-from-high is at most 0, and
whenever the stored running high is 0 the stored change-from-high is
exactly 0. -/
theorem calcRecords_change_nonpositive (rs : List VolumeData) (y : Int)
    (hzero : ∀ r ∈ rs, r.changeFromHighAvg30 = 0 ∧
      r.changeFromHighAvg90 = 0 ∧ r.changeFromHighAvg180 = 0)
    (i : Nat) (hi : i < rs.length) :
    ((0 < ((calcRecords rs y).getD i blankRecord).high30 →
        ((calcRecords rs y).getD i blankRecord).changeFromHighAvg30 ≤ 0) ∧
      (((calcRecords rs y).getD i blankRecord).high30 = 0 →
        ((calcRecords rs y).getD i blankRecord).changeFromHighAvg30 = 0)) ∧
    ((0 < ((calcRecords rs y).getD i blankRecord).high90 →
        ((calcRecords rs y).getD i blankRecord).changeFromHighAvg90 ≤ 0) ∧
      (((calcRecords rs y).getD i blankRecord).high90 = 0 →
        ((calcRecords rs y).getD i blankRecord).changeFromHighAvg90 = 0)) ∧
    ((0 < ((calcRecords rs y).getD i blankRecord).high180 →
        ((calcRecords rs y).getD i blankRecord).changeFromHighAvg180 ≤ 0) ∧
      (((calcRecords rs y).getD i blankRecord).high180 = 0 →
        ((calcRecords rs y).getD i blankRecord).changeFromHighAvg180 = 0)) := by
  have hmem : rs.getD i blankRecord ∈ rs := by
    rw [List.getD_eq_get rs blankRecord hi]
    exact List.get_mem rs i hi
  have hz := hzero _ hmem
  rw [calcRecords_getD rs y i hi]
  by_cases hf : y < (rs.getD i blankRecord).date
  · rw [recordAt_future rs y i _ hf]
    refine ⟨⟨fun h0 => ?_, fun _ => rfl⟩, ⟨fun h0 => ?_, fun _ => rfl⟩,
      ⟨fun h0 => ?_, fun _ => rfl⟩⟩
    · simp [zeroed] at h0
    · simp [zeroed] at h0
    · simp [zeroed] at h0
  · obtain ⟨f1, f2, f3, f4, g1, g2, g3, g4, k1, k2, k3, k4⟩ :=
      recordAt_fields rs y i (highsAt rs y i) hf
    have hnn := highsAt_nonneg rs y i
    refine ⟨?_, ?_, ?_⟩
    · by_cases hok : winOk rs y i 30
      · have hc := windowAvgFields_complete rs y i 30 (highsAt rs y i).1
          (rs.getD i blankRecord).changeFromHighAvg30 hi hok
        rw [f2, f3, hc]
        dsimp only
        refine ⟨fun h0 => ?_, fun h0 => ?_⟩
        · exact changeVal_nonpos _ _ _ (le_updateHigh _ _) h0
        · unfold changeVal
          rw [if_neg (by rw [h0]; exact lt_irrefl 0)]
          exact hz.1
      · have hcond := scan_incomplete rs y i 30 hi hok
        rw [f2, f3, windowAvgFields_zero rs y i 30 _ _ hcond]
        exact ⟨fun h0 => absurd h0 (lt_irrefl 0), fun _ => rfl⟩
    · by_cases hok : winOk rs y i 90
      · have hc := windowAvgFields_complete rs y i 90 (highsAt rs y i).2.1
          (rs.getD i blankRecord).changeFromHighAvg90 hi hok
        rw [g2, g3, hc]
        dsimp only
        refine ⟨fun h0 => ?_, fun h0 => ?_⟩
        · exact changeVal_nonpos _ _ _ (le_updateHigh _ _) h0
        · unfold changeVal
          rw [if_neg (by rw [h0]; exact lt_irrefl 0)]
          exact hz.2.1
      · have hcond := scan_incomplete rs y i 90 hi hok
        rw [g2, g3, windowAvgFields_zero rs y i 90 _ _ hcond]
        exact ⟨fun h0 => absurd h0 (lt_irrefl 0), fun _ => rfl⟩
    · by_cases hok : winOk rs y i 180
      · have hc := windowAvgFields_complete rs y i 180 (highsAt rs y i).2.2
          (rs.getD i blankRecord).changeFromHighAvg180 hi hok
        rw [k2, k3, hc]
        dsimp only
        refine ⟨fun h0 => ?_, fun h0 => ?_⟩
        · exact changeVal_nonpos _ _ _ (le_updateHigh _ _) h0
        · unfold changeVal
          rw [if_neg (by rw [h0]; exact lt_irrefl 0)]
          exact hz.2.2
      · have hcond := scan_incomplete rs y i 180 hi hok
        rw [k2, k3, windowAvgFields_zero rs y i 180 _ _ hcond]
        exact ⟨fun h0 => absurd h0 (lt_irrefl 0), fun _ => rfl⟩

/-- C4 witness: a single cutoff-day record. -/
theorem calcRecords_change_nonpositive_witness :
    (∀ r ∈ ([mkObs "TOK" 0 1] : List VolumeData), r.changeFromHighAvg30 = 0 ∧
      r.changeFromHighAvg90 = 0 ∧ r.changeFromHighAvg180 = 0) ∧
    (0 < ((calcRecords [mkObs "TOK" 0 1] 0).getD 0 blankRecord).high30 →
      ((calcRecords [mkObs "TOK" 0 1] 0).getD 0
        blankRecord).changeFromHighAvg30 ≤ 0) :=
  ⟨by decide,
    ((calcRecords_change_nonpositive [mkObs "TOK" 0 1] 0 (by decide) 0
      (by decide)).1).1⟩

/-- Error taxonomy of the single-file orchestration (only the `NoData`
error, "no valid records found in input file", arises in the post-parse
pipeline modelled here; parse errors abort earlier and are modelled at
`parseRecord`). -/
inductive CalcError where
  | noData : CalcError
deriving DecidableEq, Repr

/-- Models the post-parse pipeline of `CalculateRollingAverages`
(volume.go lines 196-478, and the writer's record ordering, lines
513-531), given the series name, the invocation instant (`timeNow()`) and
the successfully parsed rows.  Steps: compute `today` (the invocation
instant truncated to its day, line 197) and `yesterday` (one day earlier,
line 198); keep the rows not after `yesterday`, truncating their dates
(lines 201-229); fail with the `NoData` error if no records remain (lines
231-233); otherwise sort by date, keep the trailing horizon, densify,
compute the rolling statistics, and emit the records newest-first with
future-dated records re-zeroed. -/
def CalculateRollingAverages (name : String) (now : Int)
    (rows : List (Int × Rat)) : Except CalcError (List VolumeData) :=
  let yesterday := truncDay now - 86400
  let records := collectRecords name yesterday rows
  if records.length = 0 then Except.error CalcError.noData
  else
    Except.ok (((calcRecords
        (fillMissingDays (limitRecords yesterday (sortByDate records))
          name yesterday)
        yesterday).reverse).map
      (fun r => if yesterday < r.date then zeroed r else r))

/-- C9: if zero rows survive parsing and the future-date filter, the
orchestration fails with the `NoData` error and produces no output value.
(In the source, the output file is created at line 481, strictly after the
check at lines 231-233, so on this path the invocation aborts before any
write and the output artifact is not created.) -/
theorem calcRollingAverages_noData (name : String) (now : Int)
    (rows : List (Int × Rat))
    (h : collectRecords name (truncDay now - 86400) rows = []) :
    CalculateRollingAverages name now rows =
      Except.error CalcError.noData := by
  simp only [CalculateRollingAverages]
  rw [h]
  simp

/-- C9 witness: an empty parsed-row list. -/
theorem calcRollingAverages_noData_witness :
    collectRecords "TOK" (truncDay 86400 - 86400) [] = [] ∧
    CalculateRollingAverages "TOK" 86400 [] =
      Except.error CalcError.noData :=
  ⟨rfl, calcRollingAverages_noData "TOK" 86400 [] rfl⟩

theorem mem_insertByDate {x r : VolumeData} {l : List VolumeData}
    (h : x ∈ insertByDate r l) : x = r ∨ x ∈ l := by
  induction l with
  | nil =>
    simp only [insertByDate, List.mem_singleton] at h
    exact Or.inl h
  | cons a as ih =>
    unfold insertByDate at h
    by_cases hc : r.date < a.date
    · rw [if_pos hc] at h
      rcases List.mem_cons.mp h with h1 | h2
      · exact Or.inl h1
      · exact Or.inr h2
    · rw [if_neg hc] at h
      rcases List.mem_cons.mp h with h1 | h2
      · exact Or.inr (h1 ▸ List.mem_cons_self a as)
      · rcases ih h2 with h3 | h4
        · exact Or.inl h3
        · exact Or.inr (List.mem_cons_of_mem a h4)

theorem mem_sortByDate {x : VolumeData} {l : List VolumeData}
    (h : x ∈ sortByDate l) : x ∈ l := by
  induction l generalizing x with
  | nil => simp [sortByDate] at h
  | cons a as ih =>
    unfold sortByDate at h
    rcases mem_insertByDate h with h1 | h2
    · exact h1 ▸ List.mem_cons_self a as
    · exact List.mem_cons_of_mem a (ih h2)

theorem buildExisting_mem_aux (l : List VolumeData) (L : List VolumeData) :
    ∀ m0 : Int → Option VolumeData,
      (∀ d r, m0 d = some r → r ∈ L) → (∀ x ∈ l, x ∈ L) →
      ∀ d r,
        (l.foldl (fun m r => fun d => if d = dayOf r.date then some r else m d)
          m0) d = some r → r ∈ L := by
  induction l with
  | nil => intro m0 h0 _ d r hm; exact h0 d r hm
  | cons x xs ih =>
    intro m0 h0 hsub d r
    simp only [List.foldl_cons]
    apply ih
    · intro d' r' hm
      by_cases hd : d' = dayOf x.date
      · rw [if_pos hd] at hm
        cases hm
        exact hsub x (List.mem_cons_self x xs)
      · rw [if_neg hd] at hm
        exact h0 d' r' hm
    · intro z hz
      exact hsub z (List.mem_cons_of_mem x hz)

/-- A record stored in the `existingDates` map comes from the record
list. -/
theorem buildExisting_mem (l : List VolumeData) (d : Int) (r : VolumeData)
    (h : buildExisting l d = some r) : r ∈ l :=
  buildExisting_mem_aux l l (fun _ => none)
    (by intro d' r' h'; cases h') (fun x hx => hx) d r h

/-- Every record emitted by the day walk is either a record stored in the
map or a freshly filled zero-volume record. -/
theorem fillWalk_mem (m : Int → Option VolumeData) (name : String)
    (endT : Int) :
    ∀ (k : Nat) (c : Int) (r : VolumeData),
      (fillWalk m name endT c).get? k = some r →
      (∃ d, m d = some r) ∨ r = mkObs name (c + 86400 * k) 0 := by
  intro k
  induction k with
  | zero =>
    intro c r hr
    rw [fillWalk] at hr
    by_cases hc : endT < c
    · rw [dif_pos hc] at hr
      simp at hr
    · rw [dif_neg hc] at hr
      simp only [List.get?_cons_zero, Option.some.injEq] at hr
      cases hm : m (dayOf c) with
      | some x =>
        rw [hm] at hr
        dsimp only at hr
        exact Or.inl ⟨dayOf c, by rw [hm, hr]⟩
      | none =>
        rw [hm] at hr
        dsimp only at hr
        right
        rw [← hr]
        congr 1
        push_cast
        ring
  | succ k ih =>
    intro c r hr
    rw [fillWalk] at hr
    by_cases hc : endT < c
    · rw [dif_pos hc] at hr
      simp at hr
    · rw [dif_neg hc] at hr
      simp only [List.get?_cons_succ] at hr
      rcases ih (c + 86400) r hr with h1 | h2
      · exact Or.inl h1
      · right
        rw [h2]
        congr 1
        push_cast
        ring

/-- Volume fidelity of the densifier, in the part that does not depend on
the order of equal-date records: every densified record is either one of
the input records (and then carries that input record's volume) or a
freshly filled record with volume 0 named after the series.  (Which input
record wins when several share a calendar day depends on the order
produced by Go's unstable `sort.Slice` and is therefore not determined
by the source.) -/
theorem fillMissingDays_volume_origin (records : List VolumeData)
    (tokenName : String) (endDate : Int) (h : records ≠ []) :
    ∀ (k : Nat) (r : VolumeData),
      (fillMissingDays records tokenName endDate).get? k = some r →
      r ∈ records ∨ (r.name = tokenName ∧ r.volume = 0) := by
  have hspec := fillWalk_spec (buildExisting (sortByDate records)) tokenName
    (buildExisting_day (sortByDate records)) (dayOf endDate) 363
  have hc363 : ((363 : Nat) : Int) = 363 := by norm_num
  rw [hc363] at hspec
  have htrim : fillTrim (fillWalk (buildExisting (sortByDate records))
      tokenName (86400 * dayOf endDate) (86400 * (dayOf endDate - 363))) =
      fillWalk (buildExisting (sortByDate records)) tokenName
        (86400 * dayOf endDate) (86400 * (dayOf endDate - 363)) := by
    unfold fillTrim
    rw [if_neg (by simp [hspec.1])]
  intro k r hr
  rw [fillMissingDays_eq records tokenName endDate h, htrim] at hr
  rcases fillWalk_mem _ _ _ k _ r hr with ⟨d, hd⟩ | hmk
  · exact Or.inl (mem_sortByDate (buildExisting_mem _ d r hd))
  · right
    rw [hmk]
    exact ⟨rfl, rfl⟩

/-- A densified record for a calendar day absent from the input has
volume 0. -/
theorem fillMissingDays_absent_zero (records : List VolumeData)
    (tokenName : String) (endDate : Int) (h : records ≠ []) :
    ∀ (k : Nat) (r : VolumeData),
      (fillMissingDays records tokenName endDate).get? k = some r →
      (∀ x ∈ records, dayOf x.date ≠ dayOf r.date) → r.volume = 0 := by
  intro k r hr habs
  rcases fillMissingDays_volume_origin records tokenName endDate h k r hr
    with hm | hz
  · exact absurd rfl (habs r hm)
  · exact hz.2

end TokenVolume
